import Mathlib

/-!
Verification of the dingo-store engineering core against its specification.

The definitions below are a shallow embedding of the C++ sources:

* src/coordinator/coordinator_control_kv.cc  (MetaStore: KvRange, KvPut,
  KvPutApply, KvDeleteApply, revision encoding)
* src/engine/bdb_raw_engine.cc               (B-tree raw engine: scan,
  batch delete, delete-range strategies, deadlock retry loop,
  approximate sizes)
* src/server/coordinator_service.cc          (DoUpdateGCSafePoint)
* src/common/safe_map.h                      (DingoSafeMap)

Machine integers are modelled as Nat with explicit wrap where overflow
matters; std::string is modelled as String compared byte-lexicographically
(for the ASCII data handled here, codepoint order and byte order agree);
fallible calls return a Status value mirroring butil::Status.
-/

namespace DingoStore

/-- Error codes surfaced by the embedded functions. EINVAL is the errno
used by coordinator_control_kv.cc for illegal-parameter rejections;
the pb error namespace provides the engine codes. -/
inductive ErrCode where
  | EINVAL
  | EKEY_EMPTY
  | EKEY_NOT_FOUND
  | ERANGE_INVALID
  | EILLEGAL_PARAMTETERS
  | EINTERNAL
  | EBDB_DEADLOCK
  | EBDB_COMMIT
  | EBDB_EXCEPTION
  | ESTD_EXCEPTION
  | EBDB_UNKNOW
deriving DecidableEq, Repr

/-- Mirror of butil::Status: either OK or an error code with a message. -/
inductive Status where
  | ok
  | err (code : ErrCode) (msg : String)
deriving DecidableEq, Repr

/-- Byte-lexicographic strict order on char lists, mirroring
std::string::compare (for the UTF-8 strings handled here the codepoint
order used below coincides with byte order). -/
def charListLt : List Char → List Char → Bool
  | [], [] => false
  | [], _ :: _ => true
  | _ :: _, [] => false
  | a :: as, b :: bs =>
    if a.toNat < b.toNat then true
    else if b.toNat < a.toNat then false
    else charListLt as bs

/-- s.compare(t) < 0 in C++. -/
def cppLt (a b : String) : Bool := charListLt a.data b.data

/-- s.compare(t) <= 0 in C++. -/
def cppLe (a b : String) : Bool := !cppLt b a

/-- RevisionInternal: a (main, sub) revision pair. -/
structure RevisionInternal where
  main : Nat
  sub : Nat
deriving DecidableEq, Repr

/-- Big-endian 8-byte encoding of a 64-bit integer (Buf::WriteLong). -/
def writeLong (n : Nat) : List Nat :=
  (List.range 8).map (fun i => n / 256 ^ (7 - i) % 256)

/-- CoordinatorControl::RevisionToString: 17 bytes
main(8 BE), an underscore byte, sub(8 BE). -/
def revisionToString (r : RevisionInternal) : List Nat :=
  writeLong r.main ++ [95] ++ writeLong r.sub

/-- One generation of a MetaStore key: an optional create revision, the
(misspelled in the proto) verison counter, and the revision list. -/
structure GenerationInternal where
  create_revision : Option RevisionInternal
  verison : Nat
  revisions : List RevisionInternal
deriving DecidableEq, Repr

/-- Default-constructed generation: all proto fields unset. -/
def emptyGeneration : GenerationInternal := ⟨none, 0, []⟩

/-- KvIndexInternal: per-key index with mod revision and generations. -/
structure KvIndexInternal where
  id : String
  mod_revision : RevisionInternal
  generations : List GenerationInternal
deriving DecidableEq, Repr

/-- KvInternal: the record stored inside a KvRevInternal. -/
structure KvInternal where
  id : String
  value : String
  create_revision : RevisionInternal
  mod_revision : RevisionInternal
  version : Nat
  lease : Nat
  is_deleted : Bool
deriving DecidableEq, Repr

/-- Default-constructed KvInternal (all proto fields unset). -/
def emptyKvInternal : KvInternal := ⟨"", "", ⟨0, 0⟩, ⟨0, 0⟩, 0, 0, false⟩

/-- KvRevInternal: a revision record keyed by the encoded revision. -/
structure KvRevInternal where
  id : List Nat
  kv : KvInternal
deriving DecidableEq, Repr

/-- Default-constructed KvRevInternal. -/
def emptyKvRev : KvRevInternal := ⟨[], emptyKvInternal⟩

/-- Association-list lookup (SafeMap Get: found or not). -/
def assocGet {α β : Type} [DecidableEq α] (m : List (α × β)) (k : α) : Option β :=
  match m with
  | [] => none
  | (k₀, v₀) :: rest => if k₀ = k then some v₀ else assocGet rest k

/-- Association-list insert-or-overwrite (butil::FlatMap::insert). -/
def assocPut {α β : Type} [DecidableEq α] (m : List (α × β)) (k : α) (v : β) :
    List (α × β) :=
  match m with
  | [] => [(k, v)]
  | (k₀, v₀) :: rest =>
    if k₀ = k then (k₀, v) :: rest else (k₀, v₀) :: assocPut rest k v

/-- The MetaStore state: the kv index map keyed by user key and the kv
revision map keyed by the 17-byte encoded revision. -/
structure KvState where
  kv_index_map : List (String × KvIndexInternal)
  kv_rev_map : List (List Nat × KvRevInternal)
deriving DecidableEq, Repr

/-- The empty MetaStore state. -/
def emptyKvState : KvState := ⟨[], []⟩

/-- The generation update performed by CoordinatorControl::KvPutApply on
an existing index: returns the new generation list, the new create
revision and the new version, exactly as computed by the source. -/
def putApplyGenerations (gens : List GenerationInternal) (r : RevisionInternal) :
    List GenerationInternal × RevisionInternal × Nat :=
  match gens.getLast? with
  | none =>
    ([⟨some r, 1, [r]⟩], r, 1)
  | some g =>
    match g.create_revision with
    | some cr =>
      (gens.dropLast ++ [⟨some cr, g.verison + 1, g.revisions ++ [r]⟩], cr, g.verison + 1)
    | none =>
      (gens.dropLast ++ [⟨some r, 1, g.revisions ++ [r]⟩], r, 1)

/-- CoordinatorControl::KvPutApply. Returns the new state; the source
always returns OK once the index update is reached (watch triggering is
outside this embedding). -/
def kvPutApply (s : KvState) (key : String) (op_revision : RevisionInternal)
    (ignore_lease : Bool) (lease_id : Nat) (ignore_value : Bool) (value : String) :
    KvState :=
  let looked := assocGet s.kv_index_map key
  let last_mod_revision :=
    match looked with
    | none => (⟨0, 0⟩ : RevisionInternal)
    | some kv_index => kv_index.mod_revision
  let kv_index :=
    match looked with
    | none =>
      (⟨key, op_revision, [⟨some op_revision, 1, [op_revision]⟩]⟩ : KvIndexInternal)
    | some idx =>
      let g := putApplyGenerations idx.generations op_revision
      ⟨idx.id, op_revision, g.1⟩
  let new_create_revision :=
    match looked with
    | none => op_revision
    | some idx => (putApplyGenerations idx.generations op_revision).2.1
  let new_version :=
    match looked with
    | none => 1
    | some idx => (putApplyGenerations idx.generations op_revision).2.2
  let kv_rev_last := (assocGet s.kv_rev_map (revisionToString last_mod_revision)).getD emptyKvRev
  let kv_rev : KvRevInternal :=
    { id := revisionToString op_revision
      kv :=
        { id := key
          value := if ignore_value then kv_rev_last.kv.value else value
          create_revision := new_create_revision
          mod_revision := op_revision
          version := new_version
          lease := if ignore_lease then kv_rev_last.kv.lease else lease_id
          is_deleted := false } }
  { kv_index_map := assocPut s.kv_index_map key kv_index
    kv_rev_map := assocPut s.kv_rev_map (revisionToString op_revision) kv_rev }

/-- The generation update performed by CoordinatorControl::KvDeleteApply
on an existing index: new generation list, new create revision (proto2
getter default (0,0) when the trailing generation has none) and new
version, exactly as the source computes them. -/
def deleteApplyGenerations (gens : List GenerationInternal) (r : RevisionInternal) :
    List GenerationInternal × RevisionInternal × Nat :=
  match gens.getLast? with
  | none =>
    ([emptyGeneration], r, 1)
  | some g =>
    match g.create_revision with
    | some cr =>
      (gens.dropLast ++ [⟨some cr, g.verison + 1, g.revisions ++ [r]⟩, emptyGeneration],
        cr, g.verison + 1)
    | none =>
      (gens, ⟨0, 0⟩, g.verison)

/-- CoordinatorControl::KvDeleteApply. Returns the status and new state;
when the key has no index the source logs and returns OK without any
change. -/
def kvDeleteApply (s : KvState) (key : String) (op_revision : RevisionInternal) :
    Status × KvState :=
  match assocGet s.kv_index_map key with
  | none => (Status.ok, s)
  | some idx =>
    let last_mod_revision := idx.mod_revision
    let g := deleteApplyGenerations idx.generations op_revision
    let kv_index : KvIndexInternal := ⟨idx.id, op_revision, g.1⟩
    let new_create_revision := g.2.1
    let new_version := g.2.2
    let kv_rev_last := (assocGet s.kv_rev_map (revisionToString last_mod_revision)).getD emptyKvRev
    let kv_rev : KvRevInternal :=
      { id := revisionToString op_revision
        kv :=
          { id := key
            value := ""
            create_revision := new_create_revision
            mod_revision := op_revision
            version := new_version
            lease := 0
            is_deleted := true } }
    let _ := kv_rev_last
    (Status.ok,
      { kv_index_map := assocPut s.kv_index_map key kv_index
        kv_rev_map := assocPut s.kv_rev_map (revisionToString op_revision) kv_rev })

/-- pb::version::Kv as filled by CoordinatorControl::KvRange: main parts
of the revisions, version, lease and the user kv pair. -/
structure VersionKv where
  create_revision : Nat
  mod_revision : Nat
  version : Nat
  lease : Nat
  key : String
  value : String
deriving DecidableEq, Repr

/-- INT64_MAX, substituted for a zero limit in KvRange. -/
def int64Max : Nat := 2 ^ 63 - 1

/-- The filter CoordinatorControl::RangeRawKvIndex passes to
kv_index_map_.GetAllValues. Note the sentinel comparison in the source
is range_end == std::to_string of the NUL char, and std::to_string
promotes char to int, so the compared sentinel is the one-character
string "0" (ASCII digit zero), not the NUL string. -/
def rangeRawKvIndexFilter (key range_end : String) (version_kv : KvIndexInternal) : Bool :=
  match version_kv.generations.getLast? with
  | none => false
  | some latest_generation =>
    if latest_generation.create_revision.isNone || latest_generation.revisions.isEmpty then
      false
    else if range_end = "" then
      key = version_kv.id
    else if range_end = "0" then
      cppLe key version_kv.id
    else
      cppLe key version_kv.id && cppLt version_kv.id range_end

/-- CoordinatorControl::RangeRawKvIndex: collect all kv index values
matching the filter (map iteration order is the association list order). -/
def rangeRawKvIndex (s : KvState) (key range_end : String) : List KvIndexInternal :=
  (s.kv_index_map.filter (fun kv => rangeRawKvIndexFilter key range_end kv.2)).map (·.2)

/-- The body of the KvRange output loop for one kv index value: skips
indexes without a live latest generation, counts the rest against the
limit and materialises the record from the kv rev map. -/
def kvRangeLoop (s : KvState) (limit : Nat) (keys_only : Bool) :
    List KvIndexInternal → Nat → List VersionKv × Nat
  | [], limit_count => ([], limit_count)
  | kv_index_value :: rest, limit_count =>
    match kv_index_value.generations.getLast? with
    | none => kvRangeLoop s limit keys_only rest limit_count
    | some latest_generation =>
      if latest_generation.create_revision.isNone || latest_generation.revisions.isEmpty then
        kvRangeLoop s limit keys_only rest limit_count
      else
        let limit_count' := limit_count + 1
        if limit < limit_count' then
          kvRangeLoop s limit keys_only rest limit_count'
        else
          match assocGet s.kv_rev_map (revisionToString kv_index_value.mod_revision) with
          | none => kvRangeLoop s limit keys_only rest limit_count'
          | some kv_rev =>
            let kv_in_rev := kv_rev.kv
            let kv_temp : VersionKv :=
              { create_revision := kv_in_rev.create_revision.main
                mod_revision := kv_in_rev.mod_revision.main
                version := kv_in_rev.version
                lease := kv_in_rev.lease
                key := kv_in_rev.id
                value := if keys_only then ("") else kv_in_rev.value }
            let r := kvRangeLoop s limit keys_only rest limit_count'
            (kv_temp :: r.1, r.2)

/-- CoordinatorControl::KvRange. Returns status, the output kv list and
total_count_in_range (zero on the early-return paths, where the source
leaves the caller-initialised variable untouched). -/
def kvRange (s : KvState) (key range_end : String) (limit₀ : Nat)
    (keys_only count_only : Bool) : Status × List VersionKv × Nat :=
  let limit := if limit₀ = 0 then int64Max else limit₀
  let kv_index_values : List KvIndexInternal :=
    if range_end = "" then
      match assocGet s.kv_index_map key with
      | none => []
      | some kv_index => [kv_index]
    else
      rangeRawKvIndex s key range_end
  if range_end = "" ∧ (assocGet s.kv_index_map key).isNone then
    (Status.ok, [], 0)
  else if count_only then
    (Status.ok, [], 0)
  else
    let r := kvRangeLoop s limit keys_only kv_index_values 0
    (Status.ok, r.1, r.2)

/-- MetaIncrement op and event types used by the kv service layer. -/
inductive KvIndexEventType where
  | PUT
  | DELETE
deriving DecidableEq, Repr

/-- One kv_indexes entry of a MetaIncrement as assembled by KvPut and
KvDeleteRange (fields left at proto defaults when the source does not
set them). -/
structure KvIndexMetaIncrement where
  id : String
  event_type : KvIndexEventType
  op_revision : RevisionInternal
  ignore_lease : Bool
  lease_id : Nat
  ignore_value : Bool
  value : String
deriving DecidableEq, Repr

/-- UTF-8 byte size of a string, mirroring std::string::size. -/
def strBytes (s : String) : Nat := (s.data.map Char.utf8Size).sum

/-- FLAGS_max_kv_key_size. -/
def FLAGS_max_kv_key_size : Nat := 4096

/-- FLAGS_max_kv_value_size. -/
def FLAGS_max_kv_value_size : Nat := 4096

/-- Result of CoordinatorControl::KvPut: the status and the out
parameters touched by the function. -/
structure KvPutResult where
  status : Status
  prev_kv : VersionKv
  lease_grant_id : Nat
  meta_increment : List KvIndexMetaIncrement
  sub_revision : Nat
deriving DecidableEq, Repr

/-- Default-constructed pb::version::Kv. -/
def emptyVersionKv : VersionKv := ⟨0, 0, 0, 0, "", ""⟩

/-- CoordinatorControl::KvPut. The lease subsystem
(coordinator_control_lease.cc) is outside this file; its two calls are
abstracted by the booleans lease_query_ok (LeaseQuery succeeds) and
lease_add_ok (LeaseAddKeys succeeds), whose failure statuses are
propagated as opaque internal errors. All other steps mirror the source:
lease checks first, then the empty and length validations, then the
prev-kv lookup and the meta increment append with sub_revision advance. -/
def kvPut (lease_query_ok lease_add_ok : Bool) (s : KvState) (key value : String)
    (lease_id : Nat) (need_prev_kv igore_value ignore_lease : Bool)
    (main_revision : Nat) (sub_revision : Nat)
    (meta_increment : List KvIndexMetaIncrement) : KvPutResult :=
  let fail : Status → KvPutResult := fun st =>
    ⟨st, emptyVersionKv, lease_id, meta_increment, sub_revision⟩
  if ¬ignore_lease ∧ lease_id ≠ 0 ∧ ¬lease_query_ok then
    fail (Status.err .EINTERNAL ("lease subsystem error"))
  else
    let kvs_temp : List VersionKv :=
      if ignore_lease then (kvRange s key ("") 1 false false).2.1 else []
    if ignore_lease ∧ kvs_temp.isEmpty then
      fail (Status.err .EINVAL ("KvPut ignore_lease, but not found key"))
    else
      let lease_grant_id :=
        if ignore_lease then ((kvs_temp.head?).getD emptyVersionKv).lease else lease_id
      if lease_grant_id ≠ 0 ∧ ¬lease_add_ok then
        fail (Status.err .EINTERNAL ("lease subsystem error"))
      else if key = "" then
        fail (Status.err .EINVAL ("KvPut key is empty"))
      else if ¬igore_value ∧ value = "" then
        fail (Status.err .EINVAL ("KvPut value is empty"))
      else if FLAGS_max_kv_key_size < strBytes key then
        fail (Status.err .EINVAL ("KvPut key is too long"))
      else if ¬igore_value ∧ FLAGS_max_kv_value_size < strBytes value then
        fail (Status.err .EINVAL ("KvPut value is too long"))
      else
        let prev_kv :=
          if need_prev_kv then
            let kvs := if kvs_temp.isEmpty then (kvRange s key ("") 1 false false).2.1 else kvs_temp
            (kvs.head?).getD emptyVersionKv
          else emptyVersionKv
        let entry : KvIndexMetaIncrement :=
          { id := key
            event_type := KvIndexEventType.PUT
            op_revision := ⟨main_revision, sub_revision⟩
            ignore_lease := ignore_lease
            lease_id := lease_grant_id
            ignore_value := if ¬ignore_lease then igore_value else false
            value := if ¬igore_value then value else ("") }
        ⟨Status.ok, prev_kv, lease_grant_id, meta_increment ++ [entry], sub_revision + 1⟩

/-! ## B-tree raw engine (bdb_raw_engine.cc) -/

/-- BdbHelper::cf_name_to_id. -/
def cfNameToId (cf : String) : Option Char :=
  if cf = "default" then some '0'
  else if cf = "meta" then some '1'
  else if cf = "vector_scalar" then some '2'
  else if cf = "vector_table" then some '3'
  else if cf = "data" then some '4'
  else if cf = "lock" then some '5'
  else if cf = "write" then some '6'
  else none

/-- BdbHelper::EncodeKey: prepend the one-byte cf id. An invalid cf name
aborts the process in the source (DINGO_LOG FATAL); the identity branch
below is unreachable for the cf names the engine accepts and theorems
always carry a validity hypothesis. -/
def encodeKey (cf key : String) : String :=
  match cfNameToId cf with
  | some c => String.mk (c :: key.data)
  | none => key

/-- BdbHelper::DbtToUserKey: drop the one-byte cf id. -/
def dropCfByte (s : String) : String := String.mk (s.data.drop 1)

/-- The single-namespace B-tree store: encoded key to value. The B-tree
cursor iterates in key order, so range extraction is a filter. -/
abbrev Db : Type := List (String × String)

/-- Membership of an encoded key in the encoded half-open range. -/
def inEncodedRange (lo hi k : String) : Bool := cppLe lo k && cppLt k hi

/-- Reader::KvScan: empty bound checks, the start >= end early return
with OK, then the iterator walk over the half-open range, returning
user keys. -/
def kvScan (cf start_key end_key : String) (db : Db) : Status × List (String × String) :=
  if start_key = "" then (Status.err .EKEY_EMPTY ("Start key is empty"), [])
  else if end_key = "" then (Status.err .EKEY_EMPTY ("End key is empty"), [])
  else if cppLe end_key start_key then (Status.ok, [])
  else
    (Status.ok,
      db.filterMap (fun kv =>
        if inEncodedRange (encodeKey cf start_key) (encodeKey cf end_key) kv.1 then
          some (dropCfByte kv.1, kv.2)
        else none))

/-- Reader::GetRangeKeys: as KvScan but collecting user keys only. -/
def getRangeKeys (cf start_key end_key : String) (db : Db) : Status × List String :=
  if start_key = "" then (Status.err .EKEY_EMPTY ("Start key is empty"), [])
  else if end_key = "" then (Status.err .EKEY_EMPTY ("End key is empty"), [])
  else if cppLe end_key start_key then (Status.ok, [])
  else
    (Status.ok,
      db.filterMap (fun kv =>
        if inEncodedRange (encodeKey cf start_key) (encodeKey cf end_key) kv.1 then
          some (dropCfByte kv.1)
        else none))

/-- Writer::KvBatchDelete: empty-keys check, then one transaction that
removes every listed key and commits (the deadlock retry loop is
modelled separately; the pure transaction body always commits). -/
def kvBatchDelete (cf : String) (keys : List String) (db : Db) : Status × Db :=
  if keys = [] then (Status.err .EKEY_EMPTY ("Keys is empty"), db)
  else
    (Status.ok,
      (db : List (String × String)).filter
        (fun kv => !((keys.map (encodeKey cf)).contains kv.1)))

/-- Modelled from the spec: Helper::CheckRange is declared in
common/helper.h, which is not under src; the spec requires non-empty
bounds with start < end for a valid range. -/
def checkRange (start_key end_key : String) : Bool :=
  start_key ≠ "" && end_key ≠ "" && cppLt start_key end_key

/-- Writer::DeleteRangeByCursor: range check, DB_SET_RANGE positioning
(an internal error when no key of the whole store is at or after the
encoded start), then the cursor walk deleting keys below the encoded
end, all inside the callers transaction. -/
def deleteRangeByCursor (cf start_key end_key : String) (db : Db) : Status × Db :=
  if ¬checkRange start_key end_key then
    (Status.err .EILLEGAL_PARAMTETERS ("invalid range"), db)
  else if (db : List (String × String)).all
      (fun kv => cppLt kv.1 (encodeKey cf start_key)) then
    (Status.err .EINTERNAL ("Internal txn get error."), db)
  else
    (Status.ok,
      (db : List (String × String)).filter
        (fun kv => !inEncodedRange (encodeKey cf start_key) (encodeKey cf end_key) kv.1))

/-- The per-cf loop of Writer::KvBatchDeleteRangeNormal, operating on the
transaction view: validates each range and delegates to the cursor
deletion; the first error aborts the loop. -/
def normalRangesGo (cf : String) : List (String × String) → Db → Status × Db
  | [], txn => (Status.ok, txn)
  | (s, e) :: rest, txn =>
    if s = "" ∨ e = "" then (Status.err .EILLEGAL_PARAMTETERS ("range is empty"), txn)
    else if cppLe e s then (Status.err .EILLEGAL_PARAMTETERS ("range is wrong"), txn)
    else
      match deleteRangeByCursor cf s e txn with
      | (Status.ok, txn') => normalRangesGo cf rest txn'
      | (st, _) => (st, txn)

/-- The outer cf loop of Writer::KvBatchDeleteRangeNormal. -/
def normalCfsGo : List (String × List (String × String)) → Db → Status × Db
  | [], txn => (Status.ok, txn)
  | (cf, ranges) :: rest, txn =>
    match normalRangesGo cf ranges txn with
    | (Status.ok, txn') => normalCfsGo rest txn'
    | (st, _) => (st, txn)

/-- Writer::KvBatchDeleteRangeNormal: one engine transaction around the
whole walk; on success the transaction commits, on any error the DEFER
aborts it and the store is unchanged. -/
def kvBatchDeleteRangeNormal (range_with_cfs : List (String × List (String × String)))
    (db : Db) : Status × Db :=
  match normalCfsGo range_with_cfs db with
  | (Status.ok, txn') => (Status.ok, txn')
  | (st, _) => (st, db)

/-- The per-cf loop of Writer::KvBatchDeleteRangeBulk: each range is
scanned with GetRangeKeys and deleted with KvBatchDelete, which begins
and commits its own transaction, so every completed range is already
durable when a later range fails. -/
def bulkRangesGo (cf : String) : List (String × String) → Db → Status × Db
  | [], db => (Status.ok, db)
  | (s, e) :: rest, db =>
    if s = "" ∨ e = "" then (Status.err .EILLEGAL_PARAMTETERS ("range is empty"), db)
    else if cppLe e s then (Status.err .EILLEGAL_PARAMTETERS ("range is wrong"), db)
    else
      match getRangeKeys cf s e db with
      | (Status.ok, keys) =>
        if keys = [] then bulkRangesGo cf rest db
        else
          match kvBatchDelete cf keys db with
          | (Status.ok, db') => bulkRangesGo cf rest db'
          | (st, db') => (st, db')
      | (st, _) => (st, db)

/-- The outer cf loop of Writer::KvBatchDeleteRangeBulk. -/
def bulkCfsGo : List (String × List (String × String)) → Db → Status × Db
  | [], db => (Status.ok, db)
  | (cf, ranges) :: rest, db =>
    match bulkRangesGo cf ranges db with
    | (Status.ok, db') => bulkCfsGo rest db'
    | (st, db') => (st, db')

/-- Writer::KvBatchDeleteRangeBulk. -/
def kvBatchDeleteRangeBulk (range_with_cfs : List (String × List (String × String)))
    (db : Db) : Status × Db :=
  bulkCfsGo range_with_cfs db

/-- Writer::KvBatchDeleteRange: the compile-time switch
BDB_BUILD_USE_BULK_DELETE is defined in the source, selecting the bulk
strategy. -/
def kvBatchDeleteRange (range_with_cfs : List (String × List (String × String)))
    (db : Db) : Status × Db :=
  kvBatchDeleteRangeBulk range_with_cfs db

/-- Writer::KvDeleteRange: single-range validation then delegation to
KvBatchDeleteRange. -/
def kvDeleteRange (cf start_key end_key : String) (db : Db) : Status × Db :=
  if start_key = "" ∨ end_key = "" then
    (Status.err .EILLEGAL_PARAMTETERS ("range is empty"), db)
  else if cppLe end_key start_key then
    (Status.err .EILLEGAL_PARAMTETERS ("range is wrong"), db)
  else kvBatchDeleteRange [(cf, [(start_key, end_key)])] db

/-- Removal of every key of every requested range, the effect the
atomicity claim demands of a successful batch delete-range. -/
def deleteAllRanges (range_with_cfs : List (String × List (String × String)))
    (db : Db) : Db :=
  range_with_cfs.foldl
    (fun acc cfr =>
      cfr.2.foldl
        (fun acc' r =>
          (acc' : List (String × String)).filter
            (fun kv => !inEncodedRange (encodeKey cfr.1 r.1) (encodeKey cfr.1 r.2) kv.1))
        acc)
    db

/-! ## Deadlock retry loop (bdb_raw_engine.cc writer operations) -/

/-- FLAGS_bdb_max_retries. -/
def FLAGS_bdb_max_retries : Nat := 30

/-- Outcome of one attempt of a writer transaction body: commit with a
result, a DbDeadlockException, or any other failure mapped to a status
(DbException, std::exception, txn begin or commit errors). -/
inductive AttemptOutcome (α : Type) where
  | success (a : α)
  | deadlock
  | failure (st : Status)
deriving DecidableEq, Repr

/-- The writer retry loop shared by KvPut, KvBatchPutAndDelete, KvDelete,
KvBatchDelete and the delete-range strategies: a deadlock aborts the
transaction and retries while retry budget remains (the source guards
with retry_count < FLAGS_bdb_max_retries and increments retry_count);
an exhausted budget surfaces EBDB_DEADLOCK; any other outcome returns
immediately. -/
def writerRetryGo {α : Type} (attempt : Nat → AttemptOutcome α) :
    Nat → Nat → Status ⊕ α
  | 0, idx =>
    match attempt idx with
    | .success a => Sum.inr a
    | .failure st => Sum.inl st
    | .deadlock =>
      Sum.inl (Status.err .EBDB_DEADLOCK
        ("writer got DeadLockException and out of retries. giving up."))
  | b + 1, idx =>
    match attempt idx with
    | .success a => Sum.inr a
    | .failure st => Sum.inl st
    | .deadlock => writerRetryGo attempt b (idx + 1)

/-- The retry loop entered with the full budget. -/
def writerRetry {α : Type} (attempt : Nat → AttemptOutcome α) : Status ⊕ α :=
  writerRetryGo attempt FLAGS_bdb_max_retries 0

/-- Writer::KvPut: empty-key check, then the retry loop around the
transaction body. -/
def kvPutOp {α : Type} (key : String) (attempt : Nat → AttemptOutcome α) : Status ⊕ α :=
  if key = "" then Sum.inl (Status.err .EKEY_EMPTY ("Key is empty")) else writerRetry attempt

/-- Writer::KvDelete: empty-key check, then the retry loop. -/
def kvDeleteOp {α : Type} (key : String) (attempt : Nat → AttemptOutcome α) : Status ⊕ α :=
  if key = "" then Sum.inl (Status.err .EKEY_EMPTY ("Key is empty")) else writerRetry attempt

/-- Writer::KvBatchDelete: empty-keys check, then the retry loop. -/
def kvBatchDeleteOp {α : Type} (keys : List String) (attempt : Nat → AttemptOutcome α) :
    Status ⊕ α :=
  if keys = [] then Sum.inl (Status.err .EKEY_EMPTY ("Keys is empty")) else writerRetry attempt

/-- Writer::KvBatchPutAndDelete: empty-batch check, then the retry loop. -/
def kvBatchPutAndDeleteOp {α : Type} (kvs_to_put : List (String × String))
    (keys_to_delete : List String) (attempt : Nat → AttemptOutcome α) : Status ⊕ α :=
  if kvs_to_put = [] ∧ keys_to_delete = [] then
    Sum.inl (Status.err .EKEY_EMPTY ("Key is empty"))
  else writerRetry attempt

/-- Writer::KvBatchDeleteRangeNormal wraps its whole walk in the retry
loop with no prior validation. -/
def kvBatchDeleteRangeNormalOp {α : Type} (attempt : Nat → AttemptOutcome α) : Status ⊕ α :=
  writerRetry attempt

/-! ## Approximate sizes (BdbRawEngine::GetApproximateSizes) -/

/-- Fixed-point denominator used to model the DB_KEY_RANGE doubles: a
fraction is represented by its numerator over 10 ^ 15, making the
1e-15 threshold of the source exactly one unit. -/
def aproxDenom : Nat := 10 ^ 15

/-- DB_KEY_RANGE as returned by Db::key_range for one key: the fractions
of keys less than, equal to and greater than the key, as fixed-point
numerators over aproxDenom. -/
structure KeyRangeStat where
  less : Nat
  equal : Nat
  greater : Nat
deriving DecidableEq, Repr

/-- The loop body of the statistics fast path (BDB_FAST_GET_APROX_SIZE,
which is defined in the source): per range, a range check and two
key_range calls abort the whole call on failure (the source returns an
empty vector); the estimated count is total times
1 - start.less - end.equal - end.greater, truncated, taken as zero below
the 1e-15 threshold; an entry is pushed only when the count is positive. -/
def fastLoop (total : Nat) (key_range : String → Option KeyRangeStat) (cf : String) :
    List (String × String) → Option (List Nat)
  | [] => some []
  | (s, e) :: rest =>
    if ¬checkRange s e then none
    else
      match key_range (encodeKey cf s), key_range (encodeKey cf e) with
      | some range_start, some range_end =>
        let range_result : Int :=
          (aproxDenom : Int) - range_start.less - range_end.equal - range_end.greater
        let count : Nat :=
          if 1 ≤ range_result then total * range_result.toNat / aproxDenom else 0
        match fastLoop total key_range cf rest with
        | none => none
        | some counts => some (if 0 < count then count :: counts else counts)
      | _, _ => none

/-- The statistics fast path of BdbRawEngine::GetApproximateSizes: stat
gives bt_nkeys (none models a stat failure, returning the empty
vector). -/
def getApproximateSizesFast (stat : Option Nat)
    (key_range : String → Option KeyRangeStat) (cf : String)
    (ranges : List (String × String)) : List Nat :=
  match stat with
  | none => []
  | some total => (fastLoop total key_range cf ranges).getD []

/-- Modelled from the spec: Reader::GetRangeCountByCursor is declared in
the engine header, which is not under src; the spec says the fallback
count is computed via cursor, so this mirrors Reader::KvCount, the
cursor count in the same file: empty bounds fail EKEY_EMPTY, a
non-positive range counts zero, otherwise the iterator walk counts the
keys of the encoded range. -/
def getRangeCountByCursor (cf start_key end_key : String) (db : Db) : Status × Nat :=
  if start_key = "" then (Status.err .EKEY_EMPTY ("Start key is empty"), 0)
  else if end_key = "" then (Status.err .EKEY_EMPTY ("End key is empty"), 0)
  else if cppLe end_key start_key then (Status.ok, 0)
  else
    (Status.ok,
      ((db : List (String × String)).filter
        (fun kv => inEncodedRange (encodeKey cf start_key) (encodeKey cf end_key) kv.1)).length)

/-- The loop of the cursor fallback of GetApproximateSizes: a count per
range, aborting the whole call (empty vector) on any error. -/
def cursorLoop (cf : String) (db : Db) : List (String × String) → Option (List Nat)
  | [] => some []
  | (s, e) :: rest =>
    match getRangeCountByCursor cf s e db with
    | (Status.ok, count) =>
      match cursorLoop cf db rest with
      | none => none
      | some counts => some (count :: counts)
    | (_, _) => none

/-- The cursor fallback of BdbRawEngine::GetApproximateSizes (compiled
when BDB_FAST_GET_APROX_SIZE is not defined). -/
def getApproximateSizesCursor (cf : String) (ranges : List (String × String))
    (db : Db) : List Nat :=
  (cursorLoop cf db ranges).getD []

/-! ## DingoSafeMap (safe_map.h) -/

/-- DingoSafeMap::Get(key, value): minus one when the doubly-buffered
read fails or the key is missing, and the source returns zero (not plus
one) on success. -/
def safeMapGet {K V : Type} [DecidableEq K] (read_ok : Bool) (m : List (K × V))
    (k : K) : Int × Option V :=
  if ¬read_ok then (-1, none)
  else
    match assocGet m k with
    | none => (-1, none)
    | some v => (0, some v)

/-- DingoSafeMap::Count: one when present, zero when absent or on read
failure. -/
def safeMapCount {K V : Type} [DecidableEq K] (read_ok : Bool) (m : List (K × V))
    (k : K) : Nat :=
  if ¬read_ok then 0
  else match assocGet m k with
    | none => 0
    | some _ => 1

/-- DingoSafeMap::Size: zero on read failure, else the record count. -/
def safeMapSize {K V : Type} (read_ok : Bool) (m : List (K × V)) : Nat :=
  if ¬read_ok then 0 else m.length

/-- DingoSafeMap::MemorySize: the source returns -1 on read failure, and
the uint64_t return type wraps it to 2 ^ 64 - 1; on success the byte
sizes of the values are summed. -/
def safeMapMemorySize {K V : Type} (read_ok : Bool) (byte_size : V → Nat)
    (m : List (K × V)) : Nat :=
  if ¬read_ok then 2 ^ 64 - 1 else (m.map (fun kv => byte_size kv.2)).sum

/-- DingoSafeMap::Put: one when the modify applied, minus one otherwise
(modify_ok models the doubly-buffered Modify executing InnerPut, which
always reports one record modified). -/
def safeMapPut {K V : Type} [DecidableEq K] (modify_ok : Bool) (m : List (K × V))
    (k : K) (v : V) : Int × List (K × V) :=
  if modify_ok then (1, assocPut m k v) else (-1, m)

/-- DingoSafeMap::Erase. -/
def safeMapErase {K V : Type} [DecidableEq K] (modify_ok : Bool) (m : List (K × V))
    (k : K) : Int × List (K × V) :=
  if modify_ok then (1, m.filter (fun kv => decide (kv.1 ≠ k))) else (-1, m)

/-- DingoSafeMap::PutIfEqual: InnerPutIfEqual reports zero records
modified when the key is absent or the stored value differs, which the
member maps to minus one with the map unchanged. -/
def safeMapPutIfEqual {K V : Type} [DecidableEq K] [DecidableEq V] (modify_ok : Bool)
    (m : List (K × V)) (k : K) (v : V) : Int × List (K × V) :=
  if ¬modify_ok then (-1, m)
  else
    match assocGet m k with
    | none => (-1, m)
    | some v₀ => if v₀ = v then (1, assocPut m k v) else (-1, m)

/-! ## DoUpdateGCSafePoint (coordinator_service.cc) -/

/-- The fields of pb::coordinator::UpdateGCSafePointResponse touched by
DoUpdateGCSafePoint. -/
structure UpdateGCSafePointResponse where
  errcode : Option ErrCode
  new_safe_point : Int
  gc_stop : Bool
deriving DecidableEq, Repr

/-- Default-constructed response. -/
def emptyGCResponse : UpdateGCSafePointResponse := ⟨none, 0, false⟩

/-- DoUpdateGCSafePoint response stamping.
CoordinatorControl::UpdateGCSafePoint lives outside this file and is
abstracted by its status and out parameters new_gc_safe_point, gc_stop
and new_resolve_lock_safe_point. On success the source runs, in order,
set_new_safe_point(new_gc_safe_point), set_gc_stop(gc_stop) and then
set_new_safe_point(new_resolve_lock_safe_point) again, so the second
call overwrites the first. -/
def doUpdateGCSafePoint (update_status : Status) (new_gc_safe_point : Int)
    (gc_stop : Bool) (new_resolve_lock_safe_point : Int) : UpdateGCSafePointResponse :=
  match update_status with
  | Status.err c _ => { emptyGCResponse with errcode := some c }
  | Status.ok =>
    let r₁ := { emptyGCResponse with new_safe_point := new_gc_safe_point }
    let r₂ := { r₁ with gc_stop := gc_stop }
    let r₃ := { r₂ with new_safe_point := new_resolve_lock_safe_point }
    r₃

/-! ## Helper predicates and claim statements -/

/-- The error code of a status, none when OK. -/
def statusCode : Status → Option ErrCode
  | Status.ok => none
  | Status.err c _ => some c

/-- The proposition p holds of the value inside o (False when absent). -/
def optionHolds {α : Type} (o : Option α) (p : α → Prop) : Prop :=
  match o with
  | none => False
  | some a => p a

instance instDecidableOptionHolds {α : Type} (o : Option α) (p : α → Prop)
    [inst : ∀ a, Decidable (p a)] : Decidable (optionHolds o p) :=
  match o with
  | none => isFalse (fun h => h)
  | some a => inst a

/-- Case analysis over an Option inside Prop. -/
def optionCase {α : Type} (o : Option α) (pn : Prop) (ps : α → Prop) : Prop :=
  match o with
  | none => pn
  | some a => ps a

instance instDecidableOptionCase {α : Type} (o : Option α) (pn : Prop) (ps : α → Prop)
    [instn : Decidable pn] [insts : ∀ a, Decidable (ps a)] :
    Decidable (optionCase o pn ps) :=
  match o with
  | none => instn
  | some a => insts a

/-- Claim C2 as stated, at one input: a delete on an absent key is a
no-op; otherwise op_rev is appended to the latest live generation, a new
(empty) generation is started and a KvRev with is_deleted is written at
op_rev. -/
def kvDeleteApplyClaim (s : KvState) (key : String) (r : RevisionInternal) : Prop :=
  optionCase (assocGet s.kv_index_map key)
    (kvDeleteApply s key r = (Status.ok, s))
    (fun idx =>
      optionHolds (assocGet (kvDeleteApply s key r).2.kv_index_map key)
        (fun idx' =>
          idx'.generations.length = idx.generations.length + 1 ∧
          (∃ g ∈ idx'.generations, r ∈ g.revisions) ∧
          optionHolds (assocGet (kvDeleteApply s key r).2.kv_rev_map (revisionToString r))
            (fun rv => rv.kv.is_deleted = true)))

/-- Claim C3 as stated: both delete-range strategies are atomic, i.e.
each leaves the store unchanged or with every key of every requested
range removed. -/
def deleteRangeAtomicityClaim : Prop :=
  ∀ (range_with_cfs : List (String × List (String × String))) (db : Db),
    ((kvBatchDeleteRangeNormal range_with_cfs db).2 = db ∨
      (kvBatchDeleteRangeNormal range_with_cfs db).2 = deleteAllRanges range_with_cfs db) ∧
    ((kvBatchDeleteRangeBulk range_with_cfs db).2 = db ∨
      (kvBatchDeleteRangeBulk range_with_cfs db).2 = deleteAllRanges range_with_cfs db)

/-- Claim C4 as stated: empty scan bounds fail KEY_EMPTY, equal bounds
give an empty result, reversed bounds fail RANGE_INVALID. -/
def kvScanBoundsClaim : Prop :=
  ∀ (cf a b : String) (db : Db),
    ((a = "" ∨ b = "") → ∃ m, (kvScan cf a b db).1 = Status.err .EKEY_EMPTY m) ∧
    (a = b → a ≠ "" → kvScan cf a b db = (Status.ok, [])) ∧
    (cppLt b a = true → b ≠ "" → ∃ m, (kvScan cf a b db).1 = Status.err .ERANGE_INVALID m)

/-- Claim C6 as stated: for valid ranges and healthy engine statistics,
both strategies of GetApproximateSizes return one count per range. -/
def approximateSizesClaim : Prop :=
  ∀ (total : Nat) (key_range : String → Option KeyRangeStat) (cf : String)
    (ranges : List (String × String)) (db : Db),
    (∀ r ∈ ranges, checkRange r.1 r.2 = true) →
    (∀ k, (key_range k).isSome) →
    (getApproximateSizesFast (some total) key_range cf ranges).length = ranges.length ∧
    (getApproximateSizesCursor cf ranges db).length = ranges.length

/-- The per-range estimate of the statistics fast path (the count the
source computes before the positivity test that guards the push). -/
def fastEstimate (total : Nat) (key_range : String → Option KeyRangeStat) (cf : String)
    (r : String × String) : Nat :=
  match key_range (encodeKey cf r.1), key_range (encodeKey cf r.2) with
  | some range_start, some range_end =>
    let range_result : Int :=
      (aproxDenom : Int) - range_start.less - range_end.equal - range_end.greater
    if 1 ≤ range_result then total * range_result.toNat / aproxDenom else 0
  | _, _ => 0

/-- The per-range exact key count of a range in the store. -/
def rangeKeyCount (cf : String) (db : Db) (r : String × String) : Nat :=
  ((db : List (String × String)).filter
    (fun kv => inEncodedRange (encodeKey cf r.1) (encodeKey cf r.2) kv.1)).length

/-! ## Concrete inputs used by counterexamples and witnesses -/

/-- A MetaStore state holding one live key a at revision (1, 0). -/
def stateAfterPut : KvState :=
  kvPutApply emptyKvState ("a") ⟨1, 0⟩ false 0 false ("v")

/-- The state after deleting key a at revision (2, 0): the index of a
ends with a tombstone generation. -/
def stateAfterDelete : KvState :=
  (kvDeleteApply stateAfterPut ("a") ⟨2, 0⟩).2

/-- One cf with a valid range, a reversed range and a second valid
range: the failing input of the bulk delete-range atomicity claim. -/
def bulkFailingRanges : List (String × List (String × String)) :=
  [(("default"), [(("a"), ("b")), (("z"), ("y")), (("c"), ("d"))])]

/-- A store with one key in each valid range of bulkFailingRanges. -/
def bulkFailingDb : Db :=
  [(("0a"), ("1")), (("0c"), ("2"))]

/-- An attempt schedule that deadlocks twice and then commits. -/
def attemptAfterTwoDeadlocks : Nat → AttemptOutcome Nat :=
  fun i => if i < 2 then AttemptOutcome.deadlock else AttemptOutcome.success 42

/-- An attempt schedule that always deadlocks. -/
def attemptAlwaysDeadlock : Nat → AttemptOutcome Nat :=
  fun _ => AttemptOutcome.deadlock

/-- Engine statistics asserting that every key of the store is below the
probed key: the estimated fraction of any range is zero. -/
def allLessStat : String → Option KeyRangeStat :=
  fun _ => some ⟨aproxDenom, 0, 0⟩

/-- A 4097-byte key, one byte over FLAGS_max_kv_key_size. -/
def longKey : String := String.mk (List.replicate 4097 'a')

/-! ## Supporting lemmas -/

/-- Lookup after insert-or-overwrite finds the inserted value. -/
theorem assocGet_put_self {α β : Type} [DecidableEq α] (m : List (α × β)) (k : α) (v : β) :
    assocGet (assocPut m k v) k = some v := by
  induction m with
  | nil => simp [assocGet, assocPut]
  | cons hd tl ih =>
    obtain ⟨k₀, v₀⟩ := hd
    by_cases h : k₀ = k
    · subst h; simp [assocPut, assocGet]
    · simp [assocPut, assocGet, h, ih]

/-- Chars with equal code points are equal. -/
theorem char_eq_of_toNat_eq {a b : Char} (h : a.toNat = b.toNat) : a = b :=
  Char.eq_of_val_eq (UInt32.ext h)

/-- Byte comparison ignores an equal leading byte. -/
theorem charListLt_cons_same (c : Char) (as bs : List Char) :
    charListLt (c :: as) (c :: bs) = charListLt as bs := by
  simp [charListLt]

/-- A list between two lists sharing a head starts with that head. -/
theorem head_eq_of_between {d c : Char} {t s e : List Char}
    (hlt : charListLt (d :: t) (c :: e) = true)
    (hge : charListLt (d :: t) (c :: s) = false) : d = c := by
  by_cases h1 : d.toNat < c.toNat
  · rw [charListLt] at hge
    simp [h1] at hge
  · by_cases h2 : c.toNat < d.toNat
    · rw [charListLt] at hlt
      simp [h1, h2] at hlt
    · exact char_eq_of_toNat_eq (by omega)

/-- Rebuilding a string from its data is the identity. -/
theorem stringMk_data (k : String) : String.mk k.data = k := by
  cases k
  rfl

/-- Unfolding of EncodeKey for a known cf id. -/
theorem encodeKey_eq {cf : String} {c : Char} (h : cfNameToId cf = some c) (key : String) :
    encodeKey cf key = String.mk (c :: key.data) := by
  simp [encodeKey, h]

/-- A key inside an encoded cf range starts with the cf byte. -/
theorem inEncodedRange_startsWith {c : Char} {s e : List Char} {k : String}
    (h : inEncodedRange (String.mk (c :: s)) (String.mk (c :: e)) k = true) :
    ∃ t, k = String.mk (c :: t) := by
  have hsplit : charListLt k.data (c :: s) = false ∧ charListLt k.data (c :: e) = true := by
    have h' := h
    unfold inEncodedRange cppLe cppLt at h'
    rcases Bool.and_eq_true _ _ |>.mp h' with ⟨h1, h2⟩
    exact ⟨by simpa using h1, h2⟩
  rcases hk : k.data with _ | ⟨d, t⟩
  · rw [hk] at hsplit
    simp [charListLt] at hsplit
  · rw [hk] at hsplit
    have hd : d = c := head_eq_of_between hsplit.2 hsplit.1
    refine ⟨t, ?_⟩
    rw [← stringMk_data k, hk, hd]

/-- Range membership under a common cf byte reduces to the user keys. -/
theorem inEncodedRange_cons (c : Char) (s e t : List Char) :
    inEncodedRange (String.mk (c :: s)) (String.mk (c :: e)) (String.mk (c :: t)) =
      (cppLe (String.mk s) (String.mk t) && cppLt (String.mk t) (String.mk e)) := by
  show (!charListLt (c :: t) (c :: s) && charListLt (c :: t) (c :: e)) = _
  rw [charListLt_cons_same, charListLt_cons_same]
  rfl

/-- Dropping the cf byte of an explicitly prefixed key. -/
theorem dropCfByte_cons (c : Char) (t : List Char) :
    dropCfByte (String.mk (c :: t)) = String.mk t := rfl

/-- Re-encoding the decoded user key of an in-range raw key is the identity. -/
theorem encode_dropCf_of_inRange {cf : String} {c : Char} (hcf : cfNameToId cf = some c)
    {s e rk : String}
    (hr : inEncodedRange (encodeKey cf s) (encodeKey cf e) rk = true) :
    encodeKey cf (dropCfByte rk) = rk := by
  rw [encodeKey_eq hcf, encodeKey_eq hcf] at hr
  rcases inEncodedRange_startsWith hr with ⟨t, ht⟩
  rw [ht, dropCfByte_cons, encodeKey_eq hcf]

/-- The keys gathered by GetRangeKeys, re-encoded, test exactly range membership. -/
theorem bulk_contains_eq_inRange {cf : String} {c : Char} (hcf : cfNameToId cf = some c)
    (s e : String) (db : Db) (k : String) (hk : k ∈ db.map Prod.fst) :
    ((db.filterMap (fun kv =>
        if inEncodedRange (encodeKey cf s) (encodeKey cf e) kv.1 then
          some (dropCfByte kv.1)
        else none)).map (encodeKey cf)).contains k =
      inEncodedRange (encodeKey cf s) (encodeKey cf e) k := by
  by_cases hin : inEncodedRange (encodeKey cf s) (encodeKey cf e) k = true
  · rw [hin]
    rw [List.elem_iff]
    rcases List.mem_map.mp hk with ⟨kv, hkv, hfst⟩
    refine List.mem_map.mpr ⟨dropCfByte k, ?_, encode_dropCf_of_inRange hcf hin⟩
    refine List.mem_filterMap.mpr ⟨kv, hkv, ?_⟩
    rw [hfst, if_pos hin]
  · rw [Bool.eq_false_iff.mpr hin]
    rw [Bool.eq_false_iff]
    intro hcontains
    rcases List.mem_map.mp (List.elem_iff.mp hcontains) with ⟨u, hu, henc⟩
    rcases List.mem_filterMap.mp hu with ⟨kv₂, _, hf⟩
    by_cases hr2 : inEncodedRange (encodeKey cf s) (encodeKey cf e) kv₂.1 = true
    · rw [if_pos hr2] at hf
      have hu' : u = dropCfByte kv₂.1 := (Option.some.inj hf).symm
      have : encodeKey cf u = kv₂.1 := by
        rw [hu']
        exact encode_dropCf_of_inRange hcf hr2
      rw [this] at henc
      rw [henc] at hr2
      exact hin hr2
    · rw [if_neg hr2] at hf
      exact absurd hf (by simp)

/-- A successful cursor range delete filters out exactly the encoded range. -/
theorem deleteRangeByCursor_ok {cf s e : String} {db db' : Db}
    (h : deleteRangeByCursor cf s e db = (Status.ok, db')) :
    db' = db.filter (fun kv => !inEncodedRange (encodeKey cf s) (encodeKey cf e) kv.1) := by
  unfold deleteRangeByCursor at h
  split at h
  · exact absurd h (by simp)
  · split at h
    · exact absurd h (by simp)
    · injection h with h1 h2
      exact h2.symm

/-- A successful normal-strategy range loop filters every range in order. -/
theorem normalRangesGo_ok {cf : String} :
    ∀ {ranges : List (String × String)} {txn txn' : Db},
      normalRangesGo cf ranges txn = (Status.ok, txn') →
      txn' = ranges.foldl (fun acc r =>
        acc.filter (fun kv =>
          !inEncodedRange (encodeKey cf r.1) (encodeKey cf r.2) kv.1)) txn := by
  intro ranges
  induction ranges with
  | nil =>
    intro txn txn' h
    simp [normalRangesGo] at h
    simp [h]
  | cons hd tl ih =>
    intro txn txn' h
    obtain ⟨s, e⟩ := hd
    rw [normalRangesGo] at h
    split at h
    · exact absurd h (by simp)
    · split at h
      · exact absurd h (by simp)
      · rcases hd' : deleteRangeByCursor cf s e txn with ⟨st, txn₁⟩
        rw [hd'] at h
        cases st with
        | ok =>
          rw [List.foldl_cons, ← deleteRangeByCursor_ok hd']
          exact ih h
        | err c m => exact absurd h (by simp)

/-- A successful normal-strategy cf loop removes every requested range. -/
theorem normalCfsGo_ok :
    ∀ {range_with_cfs : List (String × List (String × String))} {db db' : Db},
      normalCfsGo range_with_cfs db = (Status.ok, db') →
      db' = deleteAllRanges range_with_cfs db := by
  intro rwc
  induction rwc with
  | nil =>
    intro db db' h
    simp [normalCfsGo] at h
    simp [deleteAllRanges, h]
  | cons hd tl ih =>
    intro db db' h
    obtain ⟨cf, ranges⟩ := hd
    rw [normalCfsGo] at h
    rcases hd' : normalRangesGo cf ranges db with ⟨st, txn₁⟩
    rw [hd'] at h
    cases st with
    | ok =>
      have h1 := normalRangesGo_ok hd'
      have h2 := ih h
      rw [h2, h1]
      simp [deleteAllRanges]
    | err c m => exact absurd h (by simp)


/-- A successful bulk-strategy range loop filters every range in order. -/
theorem bulkRangesGo_ok {cf : String} {c : Char} (hcf : cfNameToId cf = some c) :
    ∀ {ranges : List (String × String)} {db db' : Db},
      bulkRangesGo cf ranges db = (Status.ok, db') →
      db' = ranges.foldl (fun acc r =>
        acc.filter (fun kv =>
          !inEncodedRange (encodeKey cf r.1) (encodeKey cf r.2) kv.1)) db := by
  intro ranges
  induction ranges with
  | nil =>
    intro db db' h
    simp [bulkRangesGo] at h
    simp [h]
  | cons hd tl ih =>
    intro db db' h
    obtain ⟨s, e⟩ := hd
    rw [bulkRangesGo] at h
    split at h
    · exact absurd h (by simp)
    · split at h
      · exact absurd h (by simp)
      · rename_i hse hcmp
        have hs : ¬s = "" := fun hc => hse (Or.inl hc)
        have he : ¬e = "" := fun hc => hse (Or.inr hc)
        have hgr : getRangeKeys cf s e db =
            (Status.ok, db.filterMap (fun kv =>
              if inEncodedRange (encodeKey cf s) (encodeKey cf e) kv.1 then
                some (dropCfByte kv.1)
              else none)) := by
          rw [getRangeKeys, if_neg hs, if_neg he, if_neg hcmp]
        rw [hgr] at h
        split at h
        · rename_i keys snd hkeys
          have hsnd := congrArg Prod.snd hkeys
          simp only at hsnd
          subst hsnd
          split at h
          · rename_i hnil
            rw [List.foldl_cons]
            have hfix : db.filter (fun kv =>
                !inEncodedRange (encodeKey cf s) (encodeKey cf e) kv.1) = db := by
              refine List.filter_eq_self.mpr ?_
              intro kv hkv
              have hnone := List.filterMap_eq_nil_iff.mp hnil kv hkv
              by_cases hr : inEncodedRange (encodeKey cf s) (encodeKey cf e) kv.1 = true
              · rw [if_pos hr] at hnone
                exact absurd hnone (by simp)
              · simp [hr]
            rw [hfix]
            exact ih h
          · rename_i hnil
            have hbd : kvBatchDelete cf (db.filterMap (fun kv =>
                if inEncodedRange (encodeKey cf s) (encodeKey cf e) kv.1 then
                  some (dropCfByte kv.1)
                else none)) db =
                (Status.ok, db.filter (fun kv =>
                  !(((db.filterMap (fun kv =>
                      if inEncodedRange (encodeKey cf s) (encodeKey cf e) kv.1 then
                        some (dropCfByte kv.1)
                      else none)).map (encodeKey cf)).contains kv.1))) := by
              rw [kvBatchDelete, if_neg hnil]
            rw [hbd] at h
            split at h
            · rename_i db₂ snd₂ hkeys₂
              have hsnd₂ := congrArg Prod.snd hkeys₂
              simp only at hsnd₂
              subst hsnd₂
              have hfe : db.filter (fun kv =>
                  !(((db.filterMap (fun kv =>
                      if inEncodedRange (encodeKey cf s) (encodeKey cf e) kv.1 then
                        some (dropCfByte kv.1)
                      else none)).map (encodeKey cf)).contains kv.1)) =
                  db.filter (fun kv =>
                    !inEncodedRange (encodeKey cf s) (encodeKey cf e) kv.1) := by
                refine List.filter_congr ?_
                intro kv hkv
                rw [bulk_contains_eq_inRange hcf s e db kv.1
                  (List.mem_map.mpr ⟨kv, hkv, rfl⟩)]
              rw [hfe] at h
              rw [List.foldl_cons]
              exact ih h
            · rename_i st₂ snd₂ hne₂ hkeys₂
              exact (hne₂ (congrArg Prod.fst hkeys₂).symm).elim
        · rename_i st snd hkeys
          exact (snd (congrArg Prod.fst hkeys).symm).elim

/-- A successful bulk-strategy cf loop removes every requested range. -/
theorem bulkCfsGo_ok :
    ∀ {range_with_cfs : List (String × List (String × String))} {db db' : Db},
      (∀ cfr ∈ range_with_cfs, (cfNameToId cfr.1).isSome) →
      bulkCfsGo range_with_cfs db = (Status.ok, db') →
      db' = deleteAllRanges range_with_cfs db := by
  intro rwc
  induction rwc with
  | nil =>
    intro db db' _ h
    simp [bulkCfsGo] at h
    simp [deleteAllRanges, h]
  | cons hd tl ih =>
    intro db db' hv h
    obtain ⟨cf, ranges⟩ := hd
    rw [bulkCfsGo] at h
    rcases hd' : bulkRangesGo cf ranges db with ⟨st, db₁⟩
    rw [hd'] at h
    cases st with
    | ok =>
      rcases Option.isSome_iff_exists.mp (hv (cf, ranges) (by simp)) with ⟨c, hc⟩
      have h1 := bulkRangesGo_ok hc hd'
      have h2 := ih (fun cfr hcfr => hv cfr (List.mem_cons_of_mem _ hcfr)) h
      rw [h2, h1]
      simp [deleteAllRanges]
    | err c m => exact absurd h (by simp)


/-- The success and exhaustion behaviour of the retry loop at any budget. -/
theorem writerRetryGo_success {α : Type} (attempt : Nat → AttemptOutcome α) (a : α) :
    ∀ (k budget idx : Nat), k ≤ budget →
      (∀ i, i < k → attempt (idx + i) = AttemptOutcome.deadlock) →
      attempt (idx + k) = AttemptOutcome.success a →
      writerRetryGo attempt budget idx = Sum.inr a := by
  intro k
  induction k with
  | zero =>
    intro budget idx _ _ hk
    rcases budget with _ | b
    all_goals rw [writerRetryGo, show attempt idx = AttemptOutcome.success a from by simpa using hk]
  | succ n ih =>
    intro budget idx hle hdl hk
    rcases budget with _ | b
    · omega
    · rw [writerRetryGo, show attempt idx = AttemptOutcome.deadlock from
        by have := hdl 0 (by omega); simpa using this]
      exact ih b (idx + 1) (by omega)
        (fun i hi => by
          have := hdl (i + 1) (by omega)
          rwa [show idx + (i + 1) = idx + 1 + i by omega] at this)
        (by rwa [show idx + 1 + n = idx + (n + 1) by omega])

/-- Consecutive deadlocks through the whole budget surface EBDB_DEADLOCK. -/
theorem writerRetryGo_exhaust {α : Type} (attempt : Nat → AttemptOutcome α) :
    ∀ (budget idx : Nat),
      (∀ i, i ≤ budget → attempt (idx + i) = AttemptOutcome.deadlock) →
      writerRetryGo attempt budget idx =
        Sum.inl (Status.err .EBDB_DEADLOCK
          ("writer got DeadLockException and out of retries. giving up.")) := by
  intro budget
  induction budget with
  | zero =>
    intro idx h
    rw [writerRetryGo, show attempt idx = AttemptOutcome.deadlock from
      by have := h 0 (by omega); simpa using this]
  | succ b ih =>
    intro idx h
    rw [writerRetryGo, show attempt idx = AttemptOutcome.deadlock from
      by have := h 0 (by omega); simpa using this]
    exact ih (idx + 1)
      (fun i hi => by
        have := h (i + 1) (by omega)
        rwa [show idx + (i + 1) = idx + 1 + i by omega] at this)


/-- KvPut without lease interaction reduces to its validation chain. -/
theorem kvPut_reduces
    (lease_query_ok lease_add_ok : Bool) (s : KvState) (key value : String)
    (need_prev_kv igore_value : Bool) (main_revision sub_revision : Nat)
    (meta_increment : List KvIndexMetaIncrement) :
    kvPut lease_query_ok lease_add_ok s key value 0 need_prev_kv igore_value false
      main_revision sub_revision meta_increment =
      (if key = "" then
        ⟨Status.err .EINVAL ("KvPut key is empty"), emptyVersionKv, 0, meta_increment,
          sub_revision⟩
      else if ¬igore_value ∧ value = "" then
        ⟨Status.err .EINVAL ("KvPut value is empty"), emptyVersionKv, 0, meta_increment,
          sub_revision⟩
      else if FLAGS_max_kv_key_size < strBytes key then
        ⟨Status.err .EINVAL ("KvPut key is too long"), emptyVersionKv, 0, meta_increment,
          sub_revision⟩
      else if ¬igore_value ∧ FLAGS_max_kv_value_size < strBytes value then
        ⟨Status.err .EINVAL ("KvPut value is too long"), emptyVersionKv, 0, meta_increment,
          sub_revision⟩
      else
        ⟨Status.ok,
          (if need_prev_kv then ((kvRange s key ("") 1 false false).2.1.head?).getD emptyVersionKv
            else emptyVersionKv), 0,
          meta_increment ++
            [⟨key, KvIndexEventType.PUT, ⟨main_revision, sub_revision⟩, false, 0, igore_value,
              if ¬igore_value then value else ("")⟩],
          sub_revision + 1⟩) := by
  simp only [kvPut, Bool.false_eq_true, not_false_eq_true, ne_eq, not_true_eq_false,
    false_and, and_false, if_false, List.isEmpty_nil, true_and, and_true, if_true,
    ite_false, ite_true]

/-- The 4097-char ASCII key is 4097 bytes long. -/
theorem strBytes_longKey : strBytes longKey = 4097 := by
  show (List.map Char.utf8Size (List.replicate 4097 'a')).sum = 4097
  rw [List.map_replicate, show ('a').utf8Size = 1 by decide, List.sum_replicate]
  simp

/-- The fast-path loop keeps exactly the positive estimates of valid ranges. -/
theorem fastLoop_eq (total : Nat) (key_range : String → Option KeyRangeStat) (cf : String) :
    ∀ {ranges : List (String × String)},
      (∀ r ∈ ranges, checkRange r.1 r.2 = true) →
      (∀ k, (key_range k).isSome) →
      fastLoop total key_range cf ranges =
        some ((ranges.map (fastEstimate total key_range cf)).filter
          (fun n => decide (0 < n))) := by
  intro ranges
  induction ranges with
  | nil => intro _ _; rfl
  | cons hd tl ih =>
    intro hvalid hkr
    obtain ⟨s, e⟩ := hd
    have hv : checkRange s e = true := hvalid (s, e) (by simp)
    rcases Option.isSome_iff_exists.mp (hkr (encodeKey cf s)) with ⟨st₁, h₁⟩
    rcases Option.isSome_iff_exists.mp (hkr (encodeKey cf e)) with ⟨st₂, h₂⟩
    rw [fastLoop, if_neg (by simp [hv]), h₁, h₂,
      ih (fun r hr => hvalid r (List.mem_cons_of_mem _ hr)) hkr]
    rw [List.map_cons, List.filter_cons]
    have hest : fastEstimate total key_range cf (s, e) =
        (if 1 ≤ ((aproxDenom : Int) - st₁.less - st₂.equal - st₂.greater) then
          total * ((aproxDenom : Int) - st₁.less - st₂.equal - st₂.greater).toNat / aproxDenom
        else 0) := by
      rw [fastEstimate]
      rw [h₁, h₂]
    dsimp only
    rw [← hest]
    simp only [decide_eq_true_eq]

/-- The cursor fallback loop counts every valid range. -/
theorem cursorLoop_eq (cf : String) (db : Db) :
    ∀ {ranges : List (String × String)},
      (∀ r ∈ ranges, checkRange r.1 r.2 = true) →
      cursorLoop cf db ranges = some (ranges.map (rangeKeyCount cf db)) := by
  intro ranges
  induction ranges with
  | nil => intro _; rfl
  | cons hd tl ih =>
    intro hvalid
    obtain ⟨s, e⟩ := hd
    have hv : checkRange s e = true := hvalid (s, e) (by simp)
    have hs : ¬s = "" := by
      intro hc
      rw [checkRange, hc] at hv
      simp at hv
    have he : ¬e = "" := by
      intro hc
      rw [checkRange, hc] at hv
      simp at hv
    have hlt : cppLt s e = true := by
      rw [checkRange] at hv
      simpa using (Bool.and_eq_true _ _ |>.mp hv).2
    have hle : cppLe e s = false := by
      show (!cppLt s e) = false
      rw [hlt]
      rfl
    have hg : getRangeCountByCursor cf s e db = (Status.ok, rangeKeyCount cf db (s, e)) := by
      rw [getRangeCountByCursor, if_neg hs, if_neg he, if_neg (by simp [hle])]
      rfl
    rw [cursorLoop, hg, ih (fun r hr => hvalid r (List.mem_cons_of_mem _ hr))]
    rfl

/-! ## Claim theorems -/

/-- Claim C1: KvPutApply at revision op_rev creates a fresh generation with create_revision = op_rev, one revision and verison 1 when the key has no index; appends op_rev and increments verison when the latest generation is live; revives a trailing tombstone generation with create_revision = op_rev and verison 1; and in all cases sets mod_revision to op_rev and writes a KvRev at op_rev. -/
theorem kvPutApply_spec (s : KvState) (key : String) (r : RevisionInternal)
    (ignore_lease : Bool) (lease_id : Nat) (ignore_value : Bool) (value : String) :
    (assocGet s.kv_index_map key = none →
      assocGet (kvPutApply s key r ignore_lease lease_id ignore_value value).kv_index_map key =
        some ⟨key, r, [⟨some r, 1, [r]⟩]⟩) ∧
    (∀ idx gs g cr, assocGet s.kv_index_map key = some idx →
      idx.generations = gs ++ [g] → g.create_revision = some cr →
      assocGet (kvPutApply s key r ignore_lease lease_id ignore_value value).kv_index_map key =
        some ⟨idx.id, r, gs ++ [⟨some cr, g.verison + 1, g.revisions ++ [r]⟩]⟩) ∧
    (∀ idx gs g, assocGet s.kv_index_map key = some idx →
      idx.generations = gs ++ [g] → g.create_revision = none →
      assocGet (kvPutApply s key r ignore_lease lease_id ignore_value value).kv_index_map key =
        some ⟨idx.id, r, gs ++ [⟨some r, 1, g.revisions ++ [r]⟩]⟩) ∧
    ((assocGet (kvPutApply s key r ignore_lease lease_id ignore_value value).kv_index_map key).map
        KvIndexInternal.mod_revision = some r ∧
      optionHolds
        (assocGet (kvPutApply s key r ignore_lease lease_id ignore_value value).kv_rev_map
          (revisionToString r))
        (fun rv => rv.kv.id = key ∧ rv.kv.mod_revision = r ∧ rv.kv.is_deleted = false)) := by
  refine ⟨?_, ?_, ?_, ?_⟩
  · intro h
    simp only [kvPutApply, h]
    exact assocGet_put_self ..
  · intro idx gs g cr hidx hg hcr
    simp only [kvPutApply, hidx, hg, putApplyGenerations, List.getLast?_concat,
      List.dropLast_concat, hcr]
    exact assocGet_put_self ..
  · intro idx gs g hidx hg hcr
    simp only [kvPutApply, hidx, hg, putApplyGenerations, List.getLast?_concat,
      List.dropLast_concat, hcr]
    exact assocGet_put_self ..
  · rcases h : assocGet s.kv_index_map key with _ | idx
    · simp only [kvPutApply, h]
      refine ⟨?_, ?_⟩
      · rw [assocGet_put_self]; rfl
      · rw [assocGet_put_self]; exact ⟨rfl, rfl, rfl⟩
    · simp only [kvPutApply, h]
      refine ⟨?_, ?_⟩
      · rw [assocGet_put_self]; rfl
      · rw [assocGet_put_self]; exact ⟨rfl, rfl, rfl⟩



/-- Witness for kvPutApply_spec at a fresh key in the empty state. -/
theorem kvPutApply_spec_witness :
    assocGet (kvPutApply emptyKvState ("k") ⟨5, 0⟩ false 0 false ("v")).kv_index_map ("k") =
      some ⟨("k"), ⟨5, 0⟩, [⟨some ⟨5, 0⟩, 1, [⟨5, 0⟩]⟩]⟩ :=
  (kvPutApply_spec emptyKvState ("k") ⟨5, 0⟩ false 0 false ("v")).1 rfl


/-- Claim C2, as stated, is false: at the reachable state in which key a ends with a tombstone generation, KvDeleteApply at revision (3, 0) appends no revision and starts no new generation. -/
theorem kvDeleteApply_claim_counterexample :
    ¬ kvDeleteApplyClaim stateAfterDelete ("a") ⟨3, 0⟩ := by
  unfold kvDeleteApplyClaim
  decide

/-- Claim C2, amended: KvDeleteApply is a no-op on an absent key; when the latest generation is live it appends op_rev, increments verison and starts a new empty generation; when the trailing generation is already a tombstone the generation list is unchanged; in every existing-key case mod_revision becomes op_rev and a KvRev with is_deleted is written at op_rev. -/
theorem kvDeleteApply_amended (s : KvState) (key : String) (r : RevisionInternal) :
    (assocGet s.kv_index_map key = none → kvDeleteApply s key r = (Status.ok, s)) ∧
    (∀ idx gs g cr, assocGet s.kv_index_map key = some idx →
      idx.generations = gs ++ [g] → g.create_revision = some cr →
      (kvDeleteApply s key r).1 = Status.ok ∧
      assocGet (kvDeleteApply s key r).2.kv_index_map key =
        some ⟨idx.id, r, gs ++ [⟨some cr, g.verison + 1, g.revisions ++ [r]⟩, emptyGeneration]⟩) ∧
    (∀ idx gs g, assocGet s.kv_index_map key = some idx →
      idx.generations = gs ++ [g] → g.create_revision = none →
      (kvDeleteApply s key r).1 = Status.ok ∧
      assocGet (kvDeleteApply s key r).2.kv_index_map key = some ⟨idx.id, r, gs ++ [g]⟩) ∧
    (∀ idx, assocGet s.kv_index_map key = some idx →
      (kvDeleteApply s key r).1 = Status.ok ∧
      optionHolds (assocGet (kvDeleteApply s key r).2.kv_rev_map (revisionToString r))
        (fun rv => rv.kv.id = key ∧ rv.kv.mod_revision = r ∧ rv.kv.is_deleted = true)) := by
  refine ⟨?_, ?_, ?_, ?_⟩
  · intro h
    simp only [kvDeleteApply, h]
  · intro idx gs g cr hidx hg hcr
    simp only [kvDeleteApply, hidx, hg, deleteApplyGenerations, List.getLast?_concat,
      List.dropLast_concat, hcr]
    exact ⟨trivial, assocGet_put_self ..⟩
  · intro idx gs g hidx hg hcr
    simp only [kvDeleteApply, hidx, hg, deleteApplyGenerations, List.getLast?_concat,
      List.dropLast_concat, hcr]
    exact ⟨trivial, assocGet_put_self ..⟩
  · intro idx hidx
    simp only [kvDeleteApply, hidx]
    refine ⟨trivial, ?_⟩
    rw [assocGet_put_self]
    exact ⟨rfl, rfl, rfl⟩

/-- Witness for kvDeleteApply_amended deleting a live key. -/
theorem kvDeleteApply_amended_witness :
    (kvDeleteApply stateAfterPut ("a") ⟨2, 0⟩).1 = Status.ok ∧
    assocGet (kvDeleteApply stateAfterPut ("a") ⟨2, 0⟩).2.kv_index_map ("a") =
      some ⟨("a"), ⟨2, 0⟩,
        [] ++ [⟨some ⟨1, 0⟩, 1 + 1, [⟨1, 0⟩] ++ [⟨2, 0⟩]⟩, emptyGeneration]⟩ :=
  (kvDeleteApply_amended stateAfterPut ("a") ⟨2, 0⟩).2.1
    ⟨("a"), ⟨1, 0⟩, [⟨some ⟨1, 0⟩, 1, [⟨1, 0⟩]⟩]⟩ [] ⟨some ⟨1, 0⟩, 1, [⟨1, 0⟩]⟩ ⟨1, 0⟩
    (by decide) (by decide) rfl

/-- Claim C3, as stated, is false: on a store with keys in two valid ranges separated by a reversed range, the bulk strategy deletes the first range, fails on the reversed one and leaves the store neither unchanged nor fully deleted. -/
theorem deleteRange_atomicity_counterexample : ¬ deleteRangeAtomicityClaim := by
  intro h
  exact absurd (h bulkFailingRanges bulkFailingDb).2 (by decide)

/-- Claim C3, amended: the NORMAL strategy is atomic, leaving the store unchanged on any error and removing exactly the requested ranges on success; the BULK strategy removes the requested ranges only when it returns OK, because each range commits in its own transaction. -/
theorem kvBatchDeleteRange_amended :
    (∀ (range_with_cfs : List (String × List (String × String))) (db : Db),
      (kvBatchDeleteRangeNormal range_with_cfs db).1 ≠ Status.ok →
      (kvBatchDeleteRangeNormal range_with_cfs db).2 = db) ∧
    (∀ (range_with_cfs : List (String × List (String × String))) (db : Db),
      (kvBatchDeleteRangeNormal range_with_cfs db).1 = Status.ok →
      (kvBatchDeleteRangeNormal range_with_cfs db).2 =
        deleteAllRanges range_with_cfs db) ∧
    (∀ (range_with_cfs : List (String × List (String × String))) (db : Db),
      (∀ cfr ∈ range_with_cfs, (cfNameToId cfr.1).isSome) →
      (kvBatchDeleteRangeBulk range_with_cfs db).1 = Status.ok →
      (kvBatchDeleteRangeBulk range_with_cfs db).2 =
        deleteAllRanges range_with_cfs db) := by
  refine ⟨?_, ?_, ?_⟩
  · intro rwc db h
    unfold kvBatchDeleteRangeNormal at h ⊢
    rcases hc : normalCfsGo rwc db with ⟨st, txn⟩
    try rw [hc] at h
    try rw [hc]
    cases st with
    | ok => exact absurd rfl h
    | err c m => rfl
  · intro rwc db h
    unfold kvBatchDeleteRangeNormal at h ⊢
    rcases hc : normalCfsGo rwc db with ⟨st, txn⟩
    try rw [hc] at h
    try rw [hc]
    cases st with
    | ok => exact normalCfsGo_ok hc
    | err c m => exact absurd h (by simp)
  · intro rwc db hv h
    unfold kvBatchDeleteRangeBulk at h ⊢
    rcases hc : bulkCfsGo rwc db with ⟨st, db₁⟩
    try rw [hc] at h
    try rw [hc]
    cases st with
    | ok => exact bulkCfsGo_ok hv hc
    | err c m => exact absurd h (by simp)

/-- Witness for kvBatchDeleteRange_amended: a successful bulk delete and an aborted normal delete. -/
theorem kvBatchDeleteRange_amended_witness :
    (kvBatchDeleteRangeBulk [(("default"), [(("a"), ("b"))])] [(("0a"), ("v"))]).2 =
      deleteAllRanges [(("default"), [(("a"), ("b"))])] [(("0a"), ("v"))] ∧
    (kvBatchDeleteRangeNormal bulkFailingRanges bulkFailingDb).2 = bulkFailingDb :=
  ⟨kvBatchDeleteRange_amended.2.2 [(("default"), [(("a"), ("b"))])] [(("0a"), ("v"))]
      (by decide) (by decide),
    kvBatchDeleteRange_amended.1 bulkFailingRanges bulkFailingDb (by decide)⟩


/-- Claim C4, as stated, is false: a scan with reversed bounds returns OK with an empty result instead of RANGE_INVALID. -/
theorem kvScan_claim_counterexample : ¬ kvScanBoundsClaim := by
  intro h
  rcases (h ("default") ("b") ("a") []).2.2 (by decide) (by decide) with ⟨m, hm⟩
  have he : (kvScan ("default") ("b") ("a") []).1 = Status.ok := by decide
  rw [he] at hm
  exact Status.noConfusion hm

/-- Claim C4, amended: KvScan fails EKEY_EMPTY on an empty bound, returns OK with an empty result whenever start is at or past end (including reversed bounds), and otherwise returns OK with exactly the store pairs whose user key lies in the half-open range. -/
theorem kvScan_bounds_spec (cf : String) (c : Char) (hcf : cfNameToId cf = some c)
    (a b : String) (db : Db) :
    (a = "" → kvScan cf a b db = (Status.err .EKEY_EMPTY ("Start key is empty"), [])) ∧
    (a ≠ "" → b = "" → kvScan cf a b db = (Status.err .EKEY_EMPTY ("End key is empty"), [])) ∧
    (a ≠ "" → b ≠ "" → cppLe b a = true → kvScan cf a b db = (Status.ok, [])) ∧
    (a ≠ "" → b ≠ "" → cppLe b a = false →
      (kvScan cf a b db).1 = Status.ok ∧
      ∀ k v, ((k, v) ∈ (kvScan cf a b db).2 ↔
        (String.mk (c :: k.data), v) ∈ db ∧ cppLe a k = true ∧ cppLt k b = true)) := by
  refine ⟨?_, ?_, ?_, ?_⟩
  · intro ha
    rw [kvScan, if_pos ha]
  · intro ha hb
    rw [kvScan, if_neg ha, if_pos hb]
  · intro ha hb hba
    rw [kvScan, if_neg ha, if_neg hb, if_pos (by simp [hba])]
  · intro ha hb hba
    rw [kvScan, if_neg ha, if_neg hb, if_neg (by simp [hba])]
    refine ⟨rfl, ?_⟩
    intro k v
    constructor
    · intro hmem
      rcases List.mem_filterMap.mp hmem with ⟨⟨rk, rv⟩, hin, hf⟩
      by_cases hr : inEncodedRange (encodeKey cf a) (encodeKey cf b) rk = true
      · rw [if_pos hr] at hf
        have hk' : dropCfByte rk = k := congrArg Prod.fst (Option.some.inj hf)
        have hv' : rv = v := congrArg Prod.snd (Option.some.inj hf)
        rw [encodeKey_eq hcf, encodeKey_eq hcf] at hr
        rcases inEncodedRange_startsWith hr with ⟨t, ht⟩
        have htk : t = k.data := by
          rw [← hk', ht]
          rfl
        subst htk
        rw [ht, inEncodedRange_cons, stringMk_data, stringMk_data, stringMk_data] at hr
        rcases Bool.and_eq_true _ _ |>.mp hr with ⟨h1, h2⟩
        rw [ht] at hin
        rw [← hv']
        exact ⟨hin, h1, h2⟩
      · rw [if_neg hr] at hf
        exact absurd hf (by simp)
    · intro ⟨hin, h1, h2⟩
      refine List.mem_filterMap.mpr ⟨(String.mk (c :: k.data), v), hin, ?_⟩
      have hr : inEncodedRange (encodeKey cf a) (encodeKey cf b) (String.mk (c :: k.data)) =
          true := by
        rw [encodeKey_eq hcf, encodeKey_eq hcf, inEncodedRange_cons, stringMk_data,
          stringMk_data]
        simp [h1, h2]
      rw [if_pos hr]
      show some (String.mk k.data, v) = some (k, v)
      rw [stringMk_data]


/-- Witness for kvScan_bounds_spec on a one-key store. -/
theorem kvScan_bounds_spec_witness :
    (kvScan ("default") ("a") ("b") [(("0a"), ("v"))]).1 = Status.ok ∧
    ((("a"), ("v")) ∈ (kvScan ("default") ("a") ("b") [(("0a"), ("v"))]).2 ↔
      (String.mk ('0' :: ("a").data), ("v")) ∈ [(("0a"), ("v"))] ∧
      cppLe ("a") ("a") = true ∧ cppLt ("a") ("b") = true) := by
  have h := (kvScan_bounds_spec ("default") '0' (by decide) ("a") ("b")
    [(("0a"), ("v"))]).2.2.2 (by decide) (by decide) (by decide)
  exact ⟨h.1, h.2 ("a") ("v")⟩

/-- Claim C5: every writer operation checks its emptiness precondition and then runs the shared retry loop, which retries a deadlocked transaction body up to FLAGS_bdb_max_retries = 30 times with unchanged semantics and surfaces EBDB_DEADLOCK when an attempt deadlocks with the budget exhausted. -/
theorem bdb_writer_deadlock_retry_spec :
    (∀ (α : Type) (attempt : Nat → AttemptOutcome α) (k : Nat) (a : α),
      k ≤ FLAGS_bdb_max_retries →
      (∀ i, i < k → attempt i = AttemptOutcome.deadlock) →
      attempt k = AttemptOutcome.success a →
      writerRetry attempt = Sum.inr a) ∧
    (∀ (α : Type) (attempt : Nat → AttemptOutcome α),
      (∀ i, i ≤ FLAGS_bdb_max_retries → attempt i = AttemptOutcome.deadlock) →
      writerRetry attempt =
        Sum.inl (Status.err .EBDB_DEADLOCK
          ("writer got DeadLockException and out of retries. giving up."))) ∧
    (∀ (α : Type) (key : String) (attempt : Nat → AttemptOutcome α), key ≠ "" →
      kvPutOp key attempt = writerRetry attempt ∧
      kvDeleteOp key attempt = writerRetry attempt) ∧
    (∀ (α : Type) (keys : List String) (attempt : Nat → AttemptOutcome α), keys ≠ [] →
      kvBatchDeleteOp keys attempt = writerRetry attempt) ∧
    (∀ (α : Type) (kvs_to_put : List (String × String)) (keys_to_delete : List String)
      (attempt : Nat → AttemptOutcome α), ¬(kvs_to_put = [] ∧ keys_to_delete = []) →
      kvBatchPutAndDeleteOp kvs_to_put keys_to_delete attempt = writerRetry attempt) ∧
    (∀ (α : Type) (attempt : Nat → AttemptOutcome α),
      kvBatchDeleteRangeNormalOp attempt = writerRetry attempt) := by
  refine ⟨?_, ?_, ?_, ?_, ?_, ?_⟩
  · intro α attempt k a hk hdl hs
    exact writerRetryGo_success attempt a k FLAGS_bdb_max_retries 0 hk
      (fun i hi => by simpa using hdl i hi) (by simpa using hs)
  · intro α attempt h
    exact writerRetryGo_exhaust attempt FLAGS_bdb_max_retries 0
      (fun i hi => by simpa using h i hi)
  · intro α key attempt h
    exact ⟨by simp [kvPutOp, h], by simp [kvDeleteOp, h]⟩
  · intro α keys attempt h
    simp [kvBatchDeleteOp, h]
  · intro α puts dels attempt h
    simp only [kvBatchPutAndDeleteOp, if_neg h]
  · intro α attempt
    rfl

/-- Witness for bdb_writer_deadlock_retry_spec: two deadlocks then success, and a permanent deadlock. -/
theorem bdb_writer_deadlock_retry_witness :
    writerRetry attemptAfterTwoDeadlocks = Sum.inr 42 ∧
    writerRetry attemptAlwaysDeadlock =
      Sum.inl (Status.err .EBDB_DEADLOCK
        ("writer got DeadLockException and out of retries. giving up.")) ∧
    kvPutOp ("k") attemptAfterTwoDeadlocks = Sum.inr 42 := by
  have h1 := bdb_writer_deadlock_retry_spec.1 Nat attemptAfterTwoDeadlocks 2 42
    (by decide) (by decide) (by decide)
  have h2 := bdb_writer_deadlock_retry_spec.2.1 Nat attemptAlwaysDeadlock (fun i _ => rfl)
  have h3 := (bdb_writer_deadlock_retry_spec.2.2.1 Nat ("k") attemptAfterTwoDeadlocks
    (by decide)).1
  exact ⟨h1, h2, h3.trans h1⟩

/-- Claim C6, as stated, is false: with healthy statistics estimating zero keys for one valid range, the fast path returns an empty list rather than one count per range. -/
theorem approximateSizes_claim_counterexample : ¬ approximateSizesClaim := by
  intro h
  have hlen := (h 10 allLessStat ("default") [(("a"), ("b"))] []
    (by decide) (fun k => rfl)).1
  exact absurd hlen (by decide)

/-- Claim C6, amended: the cursor fallback returns exactly one exact count per valid range in order; the statistics fast path returns the per-range estimates filtered to the positive ones, omitting zero-estimate ranges. -/
theorem getApproximateSizes_amended :
    (∀ (cf : String) (ranges : List (String × String)) (db : Db),
      (∀ r ∈ ranges, checkRange r.1 r.2 = true) →
      getApproximateSizesCursor cf ranges db = ranges.map (rangeKeyCount cf db) ∧
      (getApproximateSizesCursor cf ranges db).length = ranges.length) ∧
    (∀ (total : Nat) (key_range : String → Option KeyRangeStat) (cf : String)
      (ranges : List (String × String)),
      (∀ r ∈ ranges, checkRange r.1 r.2 = true) →
      (∀ k, (key_range k).isSome) →
      getApproximateSizesFast (some total) key_range cf ranges =
        (ranges.map (fastEstimate total key_range cf)).filter (fun n => decide (0 < n))) := by
  constructor
  · intro cf ranges db hv
    have h : getApproximateSizesCursor cf ranges db = ranges.map (rangeKeyCount cf db) := by
      rw [getApproximateSizesCursor, cursorLoop_eq cf db hv]
      rfl
    exact ⟨h, by rw [h, List.length_map]⟩
  · intro total key_range cf ranges hv hkr
    rw [getApproximateSizesFast, fastLoop_eq total key_range cf hv hkr]
    rfl

/-- Witness for getApproximateSizes_amended on a one-key store and an all-in-range estimate. -/
theorem getApproximateSizes_amended_witness :
    getApproximateSizesCursor ("default") [(("a"), ("b"))] [(("0a"), ("v"))] =
      [(("a"), ("b"))].map (rangeKeyCount ("default") [(("0a"), ("v"))])  ∧
    getApproximateSizesFast (some 7) (fun _ => some ⟨0, 0, 0⟩) ("default") [(("a"), ("b"))] =
      ([(("a"), ("b"))].map
        (fastEstimate 7 (fun _ => some ⟨0, 0, 0⟩) ("default"))).filter
        (fun n => decide (0 < n)) :=
  ⟨(getApproximateSizes_amended.1 ("default") [(("a"), ("b"))] [(("0a"), ("v"))]
      (by decide)).1,
    getApproximateSizes_amended.2 7 (fun _ => some ⟨0, 0, 0⟩) ("default") [(("a"), ("b"))]
      (by decide) (fun k => rfl)⟩


/-- Claim C7: the source compares range_end with std::to_string of the NUL char, which is the string 0, so the documented NUL sentinel falls into the half-open-interval branch and returns nothing, while the string 0 returns every key at or after the start key: at a state holding live key a, KvRange with range_end NUL yields no rows and range_end 0 yields the row. -/
theorem kvRange_nul_sentinel_bug :
    (kvRange stateAfterPut ("a") ("\x00") 0 false false).2.1 = [] ∧
    (kvRange stateAfterPut ("a") ("0") 0 false false).2.1 =
      [⟨1, 1, 1, 0, ("a"), ("v")⟩] ∧
    rangeRawKvIndex stateAfterPut ("a") ("\x00") = [] ∧
    rangeRawKvIndex stateAfterPut ("a") ("0") ≠ [] := by
  refine ⟨by decide, by decide, by decide, by decide⟩

/-- Claim C8: with the lease subsystem out of the path, a put whose key exceeds 4096 bytes, or whose value exceeds 4096 bytes when ignore_value is unset, is rejected with the EINVAL illegal-parameter errno leaving the meta increment and sub revision untouched, and a put within both bounds passes the length validations and appends exactly one PUT increment while advancing sub_revision. -/
theorem kvPut_length_validation
    (lease_query_ok lease_add_ok : Bool) (s : KvState) (key value : String)
    (need_prev_kv igore_value : Bool) (main_revision sub_revision : Nat)
    (meta_increment : List KvIndexMetaIncrement) :
    (FLAGS_max_kv_key_size < strBytes key ∨
        (igore_value = false ∧ FLAGS_max_kv_value_size < strBytes value) →
      statusCode
          (kvPut lease_query_ok lease_add_ok s key value 0 need_prev_kv igore_value false
            main_revision sub_revision meta_increment).status = some .EINVAL ∧
        (kvPut lease_query_ok lease_add_ok s key value 0 need_prev_kv igore_value false
            main_revision sub_revision meta_increment).meta_increment = meta_increment ∧
        (kvPut lease_query_ok lease_add_ok s key value 0 need_prev_kv igore_value false
            main_revision sub_revision meta_increment).sub_revision = sub_revision) ∧
    (strBytes key ≤ FLAGS_max_kv_key_size → strBytes value ≤ FLAGS_max_kv_value_size →
      key ≠ "" → (igore_value = false → value ≠ "") →
      (kvPut lease_query_ok lease_add_ok s key value 0 need_prev_kv igore_value false
          main_revision sub_revision meta_increment).status = Status.ok ∧
      (kvPut lease_query_ok lease_add_ok s key value 0 need_prev_kv igore_value false
          main_revision sub_revision meta_increment).meta_increment =
        meta_increment ++
          [⟨key, KvIndexEventType.PUT, ⟨main_revision, sub_revision⟩, false, 0,
            igore_value, if ¬igore_value then value else ("")⟩] ∧
      (kvPut lease_query_ok lease_add_ok s key value 0 need_prev_kv igore_value false
          main_revision sub_revision meta_increment).sub_revision = sub_revision + 1) := by
  rw [kvPut_reduces]
  constructor
  · intro h
    by_cases h1 : key = ""
    · rw [if_pos h1]; exact ⟨rfl, rfl, rfl⟩
    rw [if_neg h1]
    by_cases h2 : ¬igore_value = true ∧ value = ""
    · rw [if_pos h2]; exact ⟨rfl, rfl, rfl⟩
    rw [if_neg h2]
    by_cases h3 : FLAGS_max_kv_key_size < strBytes key
    · rw [if_pos h3]; exact ⟨rfl, rfl, rfl⟩
    rw [if_neg h3]
    by_cases h4 : ¬igore_value = true ∧ FLAGS_max_kv_value_size < strBytes value
    · rw [if_pos h4]; exact ⟨rfl, rfl, rfl⟩
    rcases h with hkey | ⟨higv, hval⟩
    · exact absurd hkey h3
    · exact absurd ⟨by simp [higv], hval⟩ h4
  · intro hkey hval hk hv
    rw [if_neg hk]
    have h2 : ¬(¬igore_value = true ∧ value = "") := by
      intro hc
      exact hv (by simpa using hc.1) hc.2
    rw [if_neg h2]
    have h3 : ¬FLAGS_max_kv_key_size < strBytes key := by omega
    rw [if_neg h3]
    have h4 : ¬(¬igore_value = true ∧ FLAGS_max_kv_value_size < strBytes value) := by
      intro hc
      omega
    rw [if_neg h4]
    exact ⟨rfl, rfl, rfl⟩


/-- Witness for kvPut_length_validation with a 4097-byte key and with a small key. -/
theorem kvPut_length_validation_witness :
    (statusCode (kvPut true true emptyKvState longKey ("v") 0 false false false 5 0 []).status =
        some .EINVAL ∧
      (kvPut true true emptyKvState longKey ("v") 0 false false false 5 0 []).meta_increment =
        [] ∧
      (kvPut true true emptyKvState longKey ("v") 0 false false false 5 0 []).sub_revision = 0) ∧
    ((kvPut true true emptyKvState ("k") ("v") 0 false false false 5 0 []).status = Status.ok ∧
      (kvPut true true emptyKvState ("k") ("v") 0 false false false 5 0 []).meta_increment =
        [] ++ [⟨("k"), KvIndexEventType.PUT, ⟨5, 0⟩, false, 0, false,
          if ¬(false : Bool) then ("v") else ("")⟩] ∧
      (kvPut true true emptyKvState ("k") ("v") 0 false false false 5 0 []).sub_revision =
        0 + 1) := by
  constructor
  · exact (kvPut_length_validation true true emptyKvState longKey ("v") false false 5 0 []).1
      (Or.inl (by rw [strBytes_longKey]; decide))
  · exact (kvPut_length_validation true true emptyKvState ("k") ("v") false false 5 0 []).2
      (by decide) (by decide) (by decide) (fun _ => by decide)


/-- Claim C9: DoUpdateGCSafePoint sets new_safe_point to the new global safe point, sets gc_stop, and then overwrites new_safe_point with the resolve-lock safe point, so a successful call reports the resolve-lock value instead of the global one whenever they differ, as at (100, false, 50). -/
theorem doUpdateGCSafePoint_overwrite_bug :
    (∀ (new_gc_safe_point : Int) (gc_stop : Bool) (new_resolve_lock_safe_point : Int),
      doUpdateGCSafePoint Status.ok new_gc_safe_point gc_stop new_resolve_lock_safe_point =
        ⟨none, new_resolve_lock_safe_point, gc_stop⟩) ∧
    (doUpdateGCSafePoint Status.ok 100 false 50).new_safe_point = 50 ∧
    ((50 : Int) = 100 → False) := by
  refine ⟨fun a b c => rfl, rfl, by decide⟩

/-- Claim C10: DingoSafeMap::Get returns 0, not +1, on a successful read, and MemorySize returns 2 ^ 64 - 1, not 0, on an engine read error, both contradicting the documented return-code contract that Put follows. -/
theorem safeMap_return_codes_bug :
    safeMapGet true [(("k"), ("v"))] ("k") = (0, some ("v")) ∧
    ((0 : Int) = 1 → False) ∧
    safeMapMemorySize false (fun (_ : String) => 1) [(("k"), ("v"))] = 2 ^ 64 - 1 ∧
    (2 ^ 64 - 1 ≠ 0) ∧
    safeMapPut true ([] : List (String × String)) ("k") ("v") = (1, [(("k"), ("v"))]) ∧
    safeMapSize false ([(("k"), ("v"))] : List (String × String)) = 0 := by
  refine ⟨by decide, by decide, by decide, by decide, by decide, by decide⟩


end DingoStore
